import Mathlib

/-!
# PothosBlocks: shallow embedding and verification of core stream blocks

This file embeds the core stream-processing blocks of the PothosBlocks
repository (Repeat, Clamp, Select, MinMax, Interleaver, FirstN, SkipFirstN,
Multiplexer) as executable Lean definitions, translated statement by
statement from the C++ sources, and proves (or refutes) the specification
claims about them.

Buffers of elements are modelled as `List` values; sizes and counts are
`Nat` (C++ `size_t`); element values of the numeric instantiations are
`Int` or `ℚ`.  A `work()` invocation is a pure function from the block's
configuration state and the port contents visible to that invocation to
the consumed/produced counts and the produced data.
-/

namespace PothosBlocks

/-! ## Repeat block (src/stream/Repeat.cpp)

State: `_repeatCount`.  `work()` reads `minElements` (the minimum over the
input's available elements and the output's capacity), returns if it is 0,
computes `elemsToRepeat = min(input->elements(), output->elements() / _repeatCount)`
and copies each of the first `elemsToRepeat` input elements `_repeatCount`
times into the output. -/

/-- The doubly nested memcpy loop of `Repeat::work`:
`for elem in [0, elemsToRepeat): for rep in [0, repeatCount): *out++ = in[elem]`.
The second argument is the remaining trip count of the outer loop. -/
def repeatLoop (repeatCount : Nat) : List Int → Nat → List Int
  | _, 0 => []
  | [], _ + 1 => []
  | x :: rest, n + 1 => List.replicate repeatCount x ++ repeatLoop repeatCount rest n

/-- Result of one `work()` invocation: elements consumed on the input,
elements produced on the output, and the produced data. -/
structure WorkResult where
  consumed : Nat
  produced : Nat
  out : List Int
  deriving Repr, DecidableEq

/-- `Repeat::work` (src/stream/Repeat.cpp lines 63-93).  `input` is the
input port's buffer, `cap` the output port's capacity in elements,
`repeatCount` the block's `_repeatCount`.  `workInfo().minElements` for
this one-input one-output block is `min input.length cap`. -/
def repeatWork (repeatCount : Nat) (input : List Int) (cap : Nat) : WorkResult :=
  if min input.length cap = 0 then ⟨0, 0, []⟩
  else
    let elemsToRepeat := min input.length (cap / repeatCount)
    let elemsOut := elemsToRepeat * repeatCount
    ⟨elemsToRepeat, elemsOut, repeatLoop repeatCount input elemsToRepeat⟩

/-- `Repeat::setRepeatCount` (lines 57-61): stores the new value without
any validation. -/
def repeatSetRepeatCount (_oldCount newCount : Nat) : Nat := newCount

/-- `Repeat::work` with the C++ undefined behaviour made explicit: the
expression `output->elements() / _repeatCount` at line 77 is an unguarded
`size_t` division, so an invocation that reaches it with
`_repeatCount == 0` is undefined; the embedding returns `none` exactly
when that division is evaluated with divisor 0. -/
def repeatWorkChecked (repeatCount : Nat) (input : List Int) (cap : Nat) :
    Option WorkResult :=
  if min input.length cap = 0 then some ⟨0, 0, []⟩
  else if repeatCount = 0 then none
  else some (repeatWork repeatCount input cap)

/-! ## Clamp block (src/unnamed/part_007, `Clamp<T>` and `getClampFcn`)

The block is templated over the ten numeric types
int8..int64, uint8..uint64, float32, float64.  The embedding is generic
over a linear order `α` together with the two constants the source takes
from `std::numeric_limits<T>`: `tmin = numeric_limits<T>::min()` and
`tmax = numeric_limits<T>::max()`.  For the integer instantiations these
are the least/greatest representable values.  For the floating
instantiations, `numeric_limits<T>::min()` is the smallest *positive
normalized* value (2^-126 for float32), not the least value; the
float32 instantiation below records this faithfully, embedding the
exactly-representable float values that occur as rationals (the kernel
only compares values, and comparison of finite floats agrees with the
comparison of the rationals they denote). -/

/-- The elementwise kernel returned by `getClampFcn` (part_007 lines
256-270): `out[i] = (in[i] < lo) ? lo : (hi < in[i]) ? hi : in[i]`
(the pre-C++17 expansion of `std::clamp`). -/
def clampFcn {α : Type} [LinearOrder α] (lo hi : α) (input : List α) : List α :=
  input.map (fun x => if x < lo then lo else if hi < x then hi else x)

/-- Configuration state of `Clamp<T>`: `_min`, `_max`, `_clampMin`,
`_clampMax`. -/
structure ClampState (α : Type) where
  min : α
  max : α
  clampMin : Bool
  clampMax : Bool
  deriving Repr, DecidableEq

/-- `Clamp<T>::setMin` (part_007 lines 360-366): `validateMinMax(newMin, _max)`
(throws when `min > max`) precedes the assignment, so a failing call
(first component `false`, the thrown `InvalidArgumentException`) leaves
the state untouched. -/
def clampSetMin {α : Type} [LinearOrder α] (s : ClampState α) (v : α) :
    Bool × ClampState α :=
  if s.max < v then (false, s) else (true, { s with min := v })

/-- `Clamp<T>::setMax` (lines 373-379): `validateMinMax(_min, newMax)`
precedes the assignment. -/
def clampSetMax {α : Type} [LinearOrder α] (s : ClampState α) (v : α) :
    Bool × ClampState α :=
  if v < s.min then (false, s) else (true, { s with max := v })

/-- `Clamp<T>::setMinAndMax` (lines 382-391): `validateMinMax(newMin, newMax)`
precedes both assignments. -/
def clampSetMinAndMax {α : Type} [LinearOrder α] (s : ClampState α)
    (mn mx : α) : Bool × ClampState α :=
  if mx < mn then (false, s) else (true, { s with min := mn, max := mx })

/-- Result of one `Clamp<T>::work` invocation. -/
structure ClampResult (α : Type) where
  consumed : Nat
  produced : Nat
  out : List α
  deriving Repr, DecidableEq

/-- `Clamp<T>::work` (part_007 lines 415-435): return if
`minElements == 0`; otherwise
`lo = _clampMin ? _min : numeric_limits<T>::min()`,
`hi = _clampMax ? _max : numeric_limits<T>::max()`, run the kernel over
`elems` elements, consume and produce `elems`.  `tmin`/`tmax` are the
`numeric_limits` constants of the instantiation, `cap` the output
capacity; `minElements = min input.length cap`. -/
def clampWork {α : Type} [LinearOrder α] (tmin tmax : α) (s : ClampState α)
    (input : List α) (cap : Nat) : ClampResult α :=
  if min input.length cap = 0 then ⟨0, 0, []⟩
  else
    let elems := min input.length cap
    let lo := if s.clampMin then s.min else tmin
    let hi := if s.clampMax then s.max else tmax
    ⟨elems, elems, clampFcn lo hi (input.take elems)⟩

/-- Minimum of a list of counts, as the framework's `workInfo()` computes
it over a block's ports (`std::min_element` style); 0 for no ports. -/
def listMin0 : List Nat → Nat
  | [] => 0
  | [x] => x
  | x :: y :: rest => min x (listMin0 (y :: rest))

/-- `std::numeric_limits<float>::min()` = 2^-126, exactly representable,
embedded as a rational. -/
def f32NumericLimitsMin : ℚ := 1 / 2 ^ 126

/-- `std::numeric_limits<float>::max()` = (2 - 2^-23) * 2^127. -/
def f32NumericLimitsMax : ℚ := 2 ^ 128 - 2 ^ 104

/-- The least representable float32 value (`std::numeric_limits<float>::lowest()`),
what the claim calls `TypeMin` for float32. -/
def f32Lowest : ℚ := -(2 ^ 128 - 2 ^ 104)

/-- The float32 instantiation of `Clamp<T>::work`: the constants the
source template picks up from `std::numeric_limits<float>` are
`min() = 2^-126` and `max() = 2^128 - 2^104`. -/
def clampWorkF32 : ClampState ℚ → List ℚ → Nat → ClampResult ℚ :=
  clampWork f32NumericLimitsMin f32NumericLimitsMax

/-! ## Select block (src/stream/Select.cpp)

State: `_numInputs`, `_selectedInput`.  `work()` returns if
`minInElements == 0`; otherwise it takes the selected input's buffer,
posts it to the single output, and consumes all available elements on
every input port. -/

/-- Configuration state of `Select`. -/
structure SelectState where
  numInputs : Nat
  selectedInput : Nat
  deriving Repr, DecidableEq

/-- `Select::setSelectedInput` (lines 39-50): the range check
`selectedInput >= _numInputs` precedes the assignment, so a failing call
(first component `false`, modelling the thrown `RangeException`) leaves
the state untouched. -/
def selectSetSelectedInput (s : SelectState) (v : Nat) : Bool × SelectState :=
  if s.numInputs ≤ v then (false, s)
  else (true, { s with selectedInput := v })

/-- `Select::work` (lines 52-65).  `inputs` are the buffers available on
the input ports; the result is the per-port consumed counts and the
buffer posted to the output (`none` when the guard returned early). -/
def selectWork (selectedInput : Nat) (inputs : List (List Int)) :
    List Nat × Option (List Int) :=
  if listMin0 (inputs.map List.length) = 0 then (inputs.map (fun _ => 0), none)
  else (inputs.map List.length, some (inputs.getD selectedInput []))

/-- A sequence of `Select::work` invocations, one per round of input
buffers; the result is the concatenated output stream. -/
def selectRun (selectedInput : Nat) (rounds : List (List (List Int))) : List Int :=
  rounds.flatMap (fun round => ((selectWork selectedInput round).2).getD [])

/-! ## Interleaver block (src/stream/Interleaver.cpp lines 117-240, the
shipped `/blocks/interleaver` with chunked conversion)

State: `_outputDType`, `_numInputs`, `_chunkSize`, `_chunkSizeBytes`.
Each input port carries an unspecified dtype; `work()` converts every
input buffer to the output dtype, computes the number of whole chunks
that fit, copies them round-robin, and finally consumes
`elemsIn * input->buffer().dtype.elemSize()` bytes from every input.
The embedding represents each input port as a pair of its already
converted buffer (element values) and its original per-element byte size
`elemSize` (conversion preserves the element count, so the port's
original byte count is `converted.length * elemSize`). -/

/-- Interleaver configuration state (`_chunkSize`, `_chunkSizeBytes`,
and the output dtype's byte size used to derive the latter). -/
structure InterleaverState where
  outDTypeSize : Nat
  chunkSize : Nat
  chunkSizeBytes : Nat
  deriving Repr, DecidableEq

/-- `Interleaver::setChunkSize` (lines 151-160): the positivity check
precedes both assignments, so a failing call (first component `false`,
the thrown `InvalidArgumentException`) leaves the state untouched. -/
def interleaverSetChunkSize (s : InterleaverState) (v : Nat) :
    Bool × InterleaverState :=
  if v = 0 then (false, s)
  else (true, { s with chunkSize := v, chunkSizeBytes := v * s.outDTypeSize })

/-- Result of one `Interleaver::work` invocation: bytes consumed per
input port, elements produced, and the produced data. -/
structure InterleaverResult where
  consumedBytes : List Nat
  produced : Nat
  out : List Int
  deriving Repr, DecidableEq

/-- The doubly nested copy loop of `Interleaver::work` (lines 214-228):
for each chunk index, for each input in order, copy `chunk` converted
elements from that input's cursor (which has advanced by `chunk` elements
per already-copied chunk). -/
def interleaveOut (chunk numChunks : Nat) (bufs : List (List Int)) : List Int :=
  (List.range numChunks).flatMap
    (fun chunkIndex => bufs.flatMap
      (fun b => (b.drop (chunkIndex * chunk)).take chunk))

/-- `Interleaver::work` (lines 162-233).  `inputs` pairs each port's
converted buffer with its original `elemSize`; `outCap` is the output
port's capacity in output elements.  The leading guard is
`workInfo().minElements == 0`, the minimum over the input ports'
available bytes and the output's capacity; the second early return fires
when no whole chunk fits.  Both early returns happen before any
consume/produce. -/
def interleaverWork (chunk : Nat) (inputs : List (List Int × Nat))
    (outCap : Nat) : InterleaverResult :=
  let numInputs := inputs.length
  if min (listMin0 (inputs.map (fun p => p.1.length * p.2))) outCap = 0 then
    ⟨inputs.map (fun _ => 0), 0, []⟩
  else
    let elemsIn := listMin0 (inputs.map (fun p => p.1.length))
    let numChunks := min (elemsIn / chunk) (outCap / chunk / numInputs)
    if numChunks = 0 then ⟨inputs.map (fun _ => 0), 0, []⟩
    else
      ⟨inputs.map (fun p => elemsIn * p.2),
       numChunks * numInputs * chunk,
       interleaveOut chunk numChunks (inputs.map (fun p => p.1))⟩

/-! ## MinMax block (src/stream/MinMax.cpp)

N same-dtype inputs, two outputs "min" and "max".  The kernel from
`getMinMaxFcn` runs `std::minmax_element` over the array of input
pointers with the comparator `in0[elem] < in1[elem]` and writes the
minimum element's value to `minOut[elem]` and the maximum element's
value to `maxOut[elem]`, for `elem < minAllElements * dimension`. -/

/-- The running (min, max) pair maintained while scanning the input
pointers at a fixed element index: `std::minmax_element`'s result value
at that index.  Initial accumulators are the first input's value. -/
def mmFold : List Int → Int → Int → Int × Int
  | [], mn, mx => (mn, mx)
  | v :: rest, mn, mx =>
      mmFold rest (if v < mn then v else mn) (if mx < v then v else mx)

/-- The value pair written by the kernel at scalar index `i`:
`std::minmax_element` over the inputs compared at index `i` (the
out-of-range default 0 is never read under the work guard). -/
def minMaxAt (inputs : List (List Int)) (i : Nat) : Int × Int :=
  match inputs with
  | [] => (0, 0)
  | l :: rest =>
      mmFold (rest.map (fun l2 => l2.getD i 0)) (l.getD i 0) (l.getD i 0)

/-- Result of one `MinMax<T>::work` invocation: elements consumed from
every input, elements produced on each output, and the two output
buffers. -/
structure MinMaxResult where
  consumedEach : Nat
  producedEach : Nat
  outMin : List Int
  outMax : List Int
  deriving Repr, DecidableEq

/-- `MinMax<T>::work` (lines 83-111): `elems = workInfo().minAllElements`
(the minimum over every input port's available elements and both output
ports' capacities); return if 0; run the kernel over
`N = elems * dimension` scalar slots; consume `elems` from every input
and produce `elems` on both outputs.  `dim` is the dtype dimension;
`inputs` are the ports' scalar buffers (`length = elements * dim`). -/
def minMaxWork (dim : Nat) (inputs : List (List Int))
    (capMin capMax : Nat) : MinMaxResult :=
  let elems := min (listMin0 (inputs.map (fun l => l.length / dim)))
                   (min capMin capMax)
  if elems = 0 then ⟨0, 0, [], []⟩
  else
    let n := elems * dim
    ⟨elems, elems,
     (List.range n).map (fun i => (minMaxAt inputs i).1),
     (List.range n).map (fun i => (minMaxAt inputs i).2)⟩

/-! ## FirstN / SkipFirstN blocks (src/unnamed/part_008 lines 166-299)

Each holds a single `_done` flag (plus the configured `_elems = N`).
`work()` returns when `minInElements == 0`.  While not done, if the
current buffer holds at least N elements, the whole buffer is consumed
and either its first-N truncation (FirstN) or its after-N remainder
(SkipFirstN) is posted, and `_done` is latched; with fewer than N
elements the block only raises its input reserve and neither consumes
nor posts.  Once done, FirstN consumes and drops everything while
SkipFirstN forwards every buffer unchanged. -/

/-- `FirstN::work` (lines 228-251): returns the new `_done` flag, the
consumed element count and the posted buffer (if any). -/
def firstNWork (N : Nat) (done : Bool) (input : List Int) :
    Bool × Nat × Option (List Int) :=
  if input.length = 0 then (done, 0, none)
  else if !done then
    if N ≤ input.length then (true, input.length, some (input.take N))
    else (done, 0, none)
  else (done, input.length, none)

/-- `SkipFirstN::work` (lines 269-299): returns the new `_done` flag,
the consumed element count and the posted buffer (if any). -/
def skipFirstNWork (N : Nat) (done : Bool) (input : List Int) :
    Bool × Nat × Option (List Int) :=
  if input.length = 0 then (done, 0, none)
  else if !done then
    if N ≤ input.length then (true, input.length, some (input.drop N))
    else (done, 0, none)
  else (done, input.length, some input)

/-- Total output of a `FirstN` block run over a sequence of input
buffers, threading the `_done` flag. -/
def firstNRun (N : Nat) : Bool → List (List Int) → List Int
  | _, [] => []
  | done, b :: rest =>
      let r := firstNWork N done b
      (r.2.2.getD []) ++ firstNRun N r.1 rest

/-- Total output of a `SkipFirstN` block run over a sequence of input
buffers, threading the `_done` flag. -/
def skipFirstNRun (N : Nat) : Bool → List (List Int) → List Int
  | _, [] => []
  | done, b :: rest =>
      let r := skipFirstNWork N done b
      (r.2.2.getD []) ++ skipFirstNRun N r.1 rest

/-! ## Multiplexer block (src/unnamed/part_003)

`validateRoutesVector` copies the requested routes, sorts the copy, and
throws unless the sorted copy is exactly `0, 1, ..., N-1`.  The
constructor stores the requested routes, validates them, and then (in
the port-setup loop) appends `chan` for every channel, so the private
`_routes` vector ends up holding the requested permutation followed by
`0..N-1`; `work()` and `outputChannel` only ever read the first
`numChannels` entries.  `setOutputChannel(i, o)` swaps entry `i` with
the first entry equal to `o` (`std::find` over the whole vector). -/

/-- `validateRoutesVector` (part_003 lines 11-33): sort a copy with
`std::sort`, require `back() == size()-1` and `sorted[chan] == chan` for
every channel.  (`std::sort` is modelled by insertion sort; on `Nat`
with `≤` every correct sort yields the same list.) -/
def validateRoutesVector (routes : List Nat) : Bool :=
  let sorted := List.insertionSort (· ≤ ·) routes
  (sorted.getLast? == some (routes.length - 1)) &&
  (List.range routes.length).all (fun chan => sorted.getD chan 0 == chan)

/-- The `_routes` vector as the `Multiplexer` constructor (lines 43-61)
leaves it: the validated route table followed by the `emplace_back`ed
channel indices `0..N-1`. -/
def muxInitRoutes (routes : List Nat) : List Nat :=
  routes ++ List.range routes.length

/-- `Multiplexer::setOutputChannel` (lines 70-82) after its two range
checks: find the first entry equal to `outputPort` (`std::find` over the
whole `_routes` vector) and `iter_swap` it with entry `inputPort`; if no
entry matches, an `AssertionViolationException` is thrown before any
mutation. -/
def muxSetOutputChannel (routes : List Nat) (inputPort outputPort : Nat) :
    List Nat :=
  if outputPort ∈ routes then
    let idx := routes.indexOf outputPort
    let a := routes.getD inputPort 0
    let b := routes.getD idx 0
    (routes.set inputPort b).set idx a
  else routes

/-- The `_routes` vector after a sequence of `setOutputChannel` calls. -/
def muxApplyCalls (routes : List Nat) (calls : List (Nat × Nat)) : List Nat :=
  calls.foldl (fun r c => muxSetOutputChannel r c.1 c.2) routes

end PothosBlocks

namespace PothosBlocks

/-- The repeat loop over the first `n ≤ |input|` elements produces each of
those elements repeated `repeatCount` times, in input order. -/
theorem repeatLoop_eq_flatMap (k : Nat) :
    ∀ (input : List Int) (n : Nat), n ≤ input.length →
      repeatLoop k input n = (input.take n).flatMap (List.replicate k) := by
  intro input
  induction input with
  | nil =>
    intro n hn
    have : n = 0 := Nat.le_zero.mp (by simpa using hn)
    subst this; simp [repeatLoop]
  | cons x rest ih =>
    intro n hn
    cases n with
    | zero => simp [repeatLoop]
    | succ m =>
      simp only [repeatLoop, List.take_succ_cons, List.flatMap_cons]
      rw [ih m (by simpa using Nat.succ_le_succ_iff.mp hn)]

/-- C6: for the Repeat block with `repeatCount ≥ 1`, a `work()` invocation
with available input elements `e > 0` and output capacity `c > 0` consumes
exactly `min e (c / repeatCount)` input elements, produces exactly that
many times `repeatCount` output elements, and the output is each consumed
input element duplicated `repeatCount` times consecutively, in input
order. -/
theorem repeat_work_correct (k : Nat) (input : List Int) (cap : Nat)
    (hk : 1 ≤ k) (he : 0 < input.length) (hc : 0 < cap) :
    (repeatWork k input cap).consumed = min input.length (cap / k) ∧
    (repeatWork k input cap).produced = min input.length (cap / k) * k ∧
    (repeatWork k input cap).out =
      (input.take (min input.length (cap / k))).flatMap (List.replicate k) := by
  have hguard : min input.length cap ≠ 0 := by omega
  refine ⟨?_, ?_, ?_⟩ <;> simp only [repeatWork, if_neg hguard]
  exact repeatLoop_eq_flatMap k input _ (min_le_left _ _)

/-- Witness for `repeat_work_correct`: seven input elements with
`repeatCount = 4` and room for 28 output elements (the shape of the
spec's example): all 7 elements are consumed and the output is each
element duplicated 4 times in order. -/
theorem repeat_work_correct_witness :
    (repeatWork 4 [10, 21, 32, 43, 54, 65, 76] 28).consumed = 7 ∧
    (repeatWork 4 [10, 21, 32, 43, 54, 65, 76] 28).out =
      [10, 10, 10, 10, 21, 21, 21, 21, 32, 32, 32, 32, 43, 43, 43, 43,
       54, 54, 54, 54, 65, 65, 65, 65, 76, 76, 76, 76] := by
  obtain ⟨h1, _, h3⟩ :=
    repeat_work_correct 4 [10, 21, 32, 43, 54, 65, 76] 28
      (by decide) (by decide) (by decide)
  refine ⟨?_, ?_⟩
  · rw [h1]; decide
  · rw [h3]; decide

/-- C10: `Repeat`'s division by `_repeatCount` is reachable with divisor
zero through the public interface: `setRepeatCount` stores any value,
0 included, without validation, and a subsequent `work()` invocation with
nonzero `minElements` (input and output both nonempty) evaluates the
unguarded division `output->elements() / _repeatCount` with divisor 0
(modelled as the `none` outcome of `repeatWorkChecked`). -/
theorem repeat_divzero_reachable :
    (∀ old : Nat, repeatSetRepeatCount old 0 = 0) ∧
    ∀ (input : List Int) (cap : Nat), 0 < input.length → 0 < cap →
      repeatWorkChecked 0 input cap = none := by
  refine ⟨fun _ => rfl, fun input cap he hc => ?_⟩
  have hguard : min input.length cap ≠ 0 := by omega
  simp [repeatWorkChecked, hguard]

/-- Witness for `repeat_divzero_reachable`: after `setRepeatCount(0)` a
`work()` call seeing one input element and capacity 3 hits the division
by zero. -/
theorem repeat_divzero_reachable_witness :
    repeatSetRepeatCount 7 0 = 0 ∧ repeatWorkChecked 0 [5] 3 = none :=
  ⟨repeat_divzero_reachable.1 7,
   repeat_divzero_reachable.2 [5] 3 (by decide) (by decide)⟩

/-- The `std::clamp` expansion used by the kernel agrees with
`max lo (min hi x)` whenever `lo ≤ hi`. -/
theorem stdClamp_eq_max_min {α : Type} [LinearOrder α] (lo hi x : α)
    (h : lo ≤ hi) :
    (if x < lo then lo else if hi < x then hi else x) = max lo (min hi x) := by
  rcases lt_or_le x lo with hx | hx
  · rw [if_pos hx, min_eq_right (le_of_lt (lt_of_lt_of_le hx h)),
      max_eq_left (le_of_lt hx)]
  · rw [if_neg (not_lt.mpr hx)]
    rcases lt_or_le hi x with hx2 | hx2
    · rw [if_pos hx2, min_eq_left (le_of_lt hx2), max_eq_right h]
    · rw [if_neg (not_lt.mpr hx2), min_eq_right hx2, max_eq_right hx]

/-- Counterexample to C3 as stated: in the float32 instantiation with
`clampMin` disabled and `clampMax` enabled (`min = 30`, `max = 90`), the
input element `-1` (which does not exceed `hi' = 90`) does **not** pass
through unchanged: the code's `lo` is `std::numeric_limits<float>::min()`
= 2^-126, the smallest positive normalized value, not the type's least
representable value, so `-1` is raised to `2^-126`, while the claim's
formula `max(TypeMin, min(hi', x))` with `TypeMin` the least
representable float32 value gives `-1`. -/
theorem clamp_float_typeMin_counterexample :
    (clampWorkF32 ⟨30, 90, false, true⟩ [-1] 8).out = [f32NumericLimitsMin] ∧
    max f32Lowest (min (90 : ℚ) (-1)) = -1 ∧
    f32NumericLimitsMin ≠ -1 := by
  refine ⟨?_, ?_, ?_⟩
  · show (clampWork f32NumericLimitsMin f32NumericLimitsMax
      ⟨30, 90, false, true⟩ [-1] 8).out = [f32NumericLimitsMin]
    rw [clampWork]
    norm_num [clampFcn, f32NumericLimitsMin]
  · rw [min_eq_right (by norm_num), max_eq_right ?_]
    rw [f32Lowest]; norm_num
  · rw [f32NumericLimitsMin]; norm_num

/-- When the effective bounds are inverted (`hi < lo`), the kernel's
`std::clamp` expansion returns `lo` below `lo` and `hi` everywhere
else (the final `x` branch is unreachable). -/
theorem stdClamp_eq_of_inverted {α : Type} [LinearOrder α] (lo hi x : α)
    (h : hi < lo) :
    (if x < lo then lo else if hi < x then hi else x) =
      (if x < lo then lo else hi) := by
  rcases lt_or_le x lo with hx | hx
  · rw [if_pos hx, if_pos hx]
  · rw [if_neg (not_lt.mpr hx), if_neg (not_lt.mpr hx),
      if_pos (lt_of_lt_of_le h hx)]

/-- C3 (amended): each `Clamp<T>::work` invocation consumes and produces
`minElements` elements, and with `lo' = clampMin ? min : numeric_limits<T>::min()`
and `hi' = clampMax ? max : numeric_limits<T>::max()`, every output
element equals `max(lo', min(hi', input))` **whenever `lo' ≤ hi'`** —
which for the eight integer types is every reachable state, since there
`numeric_limits` `min()`/`max()` are the least/greatest representable
values and the setters enforce `min ≤ max`.  For the floating types
`numeric_limits<T>::min()` is the smallest positive normalized value
(2^-126 for float32), not the least value, so with `clampMin` disabled a
negative input is raised to it (`clamp_float_typeMin_counterexample`),
and states with `lo' > hi'` are reachable (e.g. clampMax-only with
`max < 2^-126`); in that inverted region the output is instead `lo'`
for inputs below `lo'` and `hi'` for all others.  The two cases are
exhaustive, so the theorem covers every state of every instantiation. -/
theorem clamp_work_formula {α : Type} [LinearOrder α] (tmin tmax : α)
    (s : ClampState α) (input : List α) (cap : Nat) :
    (clampWork tmin tmax s input cap).consumed = min input.length cap ∧
    (clampWork tmin tmax s input cap).produced = min input.length cap ∧
    ((if s.clampMin then s.min else tmin) ≤ (if s.clampMax then s.max else tmax) →
      (clampWork tmin tmax s input cap).out =
        (input.take (min input.length cap)).map
          (fun x => max (if s.clampMin then s.min else tmin)
                        (min (if s.clampMax then s.max else tmax) x))) ∧
    ((if s.clampMax then s.max else tmax) < (if s.clampMin then s.min else tmin) →
      (clampWork tmin tmax s input cap).out =
        (input.take (min input.length cap)).map
          (fun x => if x < (if s.clampMin then s.min else tmin)
                    then (if s.clampMin then s.min else tmin)
                    else (if s.clampMax then s.max else tmax))) := by
  by_cases hz : min input.length cap = 0
  · simp only [clampWork, if_pos hz, hz]
    exact ⟨rfl, rfl, fun _ => by simp, fun _ => by simp⟩
  · refine ⟨?_, ?_, ?_, ?_⟩ <;> simp only [clampWork, if_neg hz]
    · intro hlohi
      rw [clampFcn, List.map_congr_left]
      intro x _
      exact stdClamp_eq_max_min _ _ x hlohi
    · intro hinv
      rw [clampFcn, List.map_congr_left]
      intro x _
      exact stdClamp_eq_of_inverted _ _ x hinv

/-- The ports minimum is a lower bound of every port's count. -/
theorem listMin0_le {l : List Nat} {x : Nat} (hx : x ∈ l) : listMin0 l ≤ x := by
  induction l with
  | nil => cases hx
  | cons y rest ih =>
    cases rest with
    | nil =>
      rcases List.mem_singleton.mp hx with rfl
      exact le_refl _
    | cons z rest2 =>
      rcases List.mem_cons.mp hx with rfl | hmem
      · exact min_le_left _ _
      · exact le_trans (min_le_right _ _) (ih hmem)

/-- The ports minimum is positive when there is a port and every port's
count is positive. -/
theorem listMin0_pos {l : List Nat} (hne : l ≠ []) (h : ∀ x ∈ l, 0 < x) :
    0 < listMin0 l := by
  induction l with
  | nil => exact absurd rfl hne
  | cons y rest ih =>
    cases rest with
    | nil => exact h y (List.mem_singleton.mpr rfl)
    | cons z rest2 =>
      refine lt_min (h y (List.mem_cons_self _ _)) (ih (by simp) ?_)
      intro x hx
      exact h x (List.mem_cons_of_mem _ hx)

/-- C8: for the Select block with selected input `k < N`, every `work()`
invocation whose rounds all offer data (`minInElements > 0`) posts
exactly input `k`'s current buffer and consumes all available elements
on every input port; consequently over a run the output stream is the
concatenation of exactly the buffers that arrived on channel `k`. -/
theorem select_work_forwarding (k N : Nat) (rounds : List (List (List Int)))
    (hk : k < N)
    (hr : ∀ r ∈ rounds, r.length = N ∧ ∀ b ∈ r, b ≠ []) :
    (∀ r ∈ rounds,
      (selectWork k r).1 = r.map List.length ∧
      (selectWork k r).2 = some (r.getD k [])) ∧
    selectRun k rounds = rounds.flatMap (fun r => r.getD k []) := by
  have hwork : ∀ r ∈ rounds,
      (selectWork k r).1 = r.map List.length ∧
      (selectWork k r).2 = some (r.getD k []) := by
    intro r hmem
    obtain ⟨hlen, hbufs⟩ := hr r hmem
    have hguard : listMin0 (r.map List.length) ≠ 0 := by
      have : 0 < listMin0 (r.map List.length) := by
        refine listMin0_pos ?_ ?_
        · intro hcon
          have : r = [] := by simpa using hcon
          subst this
          simp at hlen
          omega
        · intro x hx
          obtain ⟨b, hb, rfl⟩ := List.mem_map.mp hx
          have := hbufs b hb
          cases b with
          | nil => exact absurd rfl this
          | cons _ _ => simp
      omega
    constructor <;> simp [selectWork, hguard]
  refine ⟨hwork, ?_⟩
  induction rounds with
  | nil => rfl
  | cons r rest ih =>
    have hmem : r ∈ r :: rest := List.mem_cons_self _ _
    obtain ⟨-, hpost⟩ := hwork r hmem
    rw [selectRun, List.flatMap_cons, ← selectRun, hpost]
    rw [ih (fun r2 h2 => hr r2 (List.mem_cons_of_mem _ h2))
        (fun r2 h2 => hwork r2 (List.mem_cons_of_mem _ h2))]
    rfl

/-- Witness for `select_work_forwarding`: two rounds on two channels with
selected input 1: the output stream is channel 1's buffers `[2] ++ [4]`. -/
theorem select_work_forwarding_witness :
    selectRun 1 [[[1], [2]], [[3], [4]]] = [2, 4] := by
  obtain ⟨-, hrun⟩ :=
    select_work_forwarding 1 2 [[[1], [2]], [[3], [4]]]
      (by decide) (by decide)
  rw [hrun]; decide

/-- C4: for each core block (Repeat, Clamp, Select, MinMax, Interleaver),
whenever the governing minimum element count (`minElements`,
`minInElements` or `minAllElements` as the block's `work()` reads it) is
0 at the start of `work()`, the invocation is a complete no-op: nothing
is consumed, nothing is produced, no buffer is posted. -/
theorem zero_min_elements_noop :
    (∀ (k : Nat) (input : List Int) (cap : Nat),
      min input.length cap = 0 → repeatWork k input cap = ⟨0, 0, []⟩) ∧
    (∀ (α : Type) (inst : LinearOrder α) (tmin tmax : α) (s : ClampState α)
        (input : List α) (cap : Nat),
      min input.length cap = 0 → clampWork tmin tmax s input cap = ⟨0, 0, []⟩) ∧
    (∀ (k : Nat) (inputs : List (List Int)),
      listMin0 (inputs.map List.length) = 0 →
      selectWork k inputs = (inputs.map (fun _ => 0), none)) ∧
    (∀ (dim : Nat) (inputs : List (List Int)) (capMin capMax : Nat),
      min (listMin0 (inputs.map (fun l => l.length / dim))) (min capMin capMax) = 0 →
      minMaxWork dim inputs capMin capMax = ⟨0, 0, [], []⟩) ∧
    (∀ (chunk : Nat) (inputs : List (List Int × Nat)) (outCap : Nat),
      min (listMin0 (inputs.map (fun p => p.1.length * p.2))) outCap = 0 →
      interleaverWork chunk inputs outCap = ⟨inputs.map (fun _ => 0), 0, []⟩) := by
  refine ⟨?_, ?_, ?_, ?_, ?_⟩
  · intro k input cap h; simp [repeatWork, h]
  · intro α inst tmin tmax s input cap h; simp [clampWork, h]
  · intro k inputs h; simp [selectWork, h]
  · intro dim inputs capMin capMax h; simp [minMaxWork, h]
  · intro chunk inputs outCap h; simp [interleaverWork, h]

/-- Witness for `zero_min_elements_noop`: each block at a concrete
zero-minimum port configuration. -/
theorem zero_min_elements_noop_witness :
    repeatWork 4 [] 5 = ⟨0, 0, []⟩ ∧
    clampWork (-128 : Int) 127 ⟨30, 90, true, true⟩ [3] 0 = ⟨0, 0, []⟩ ∧
    selectWork 0 [[1], []] = ([0, 0], none) ∧
    minMaxWork 1 [[1], []] 3 3 = ⟨0, 0, [], []⟩ ∧
    interleaverWork 1 [([1, 2], 1)] 0 = ⟨[0], 0, []⟩ := by
  refine ⟨?_, ?_, ?_, ?_, ?_⟩
  · exact zero_min_elements_noop.1 4 [] 5 (by decide)
  · exact zero_min_elements_noop.2.1 Int _ (-128) 127 ⟨30, 90, true, true⟩ [3] 0 (by decide)
  · exact zero_min_elements_noop.2.2.1 0 [[1], []] (by decide)
  · exact zero_min_elements_noop.2.2.2.1 1 [[1], []] 3 3 (by decide)
  · exact zero_min_elements_noop.2.2.2.2 1 [([1, 2], 1)] 0 (by decide)

/-- C9: every validated setter (Clamp `setMin`/`setMax`/`setMinAndMax`,
Interleaver `setChunkSize`, Select `setSelectedInput`) performs its
validation before any mutation, so a call that raises an error leaves
the block's observable configuration state exactly as it was. -/
theorem failed_setter_preserves_state :
    (∀ (α : Type) (inst : LinearOrder α) (s : ClampState α) (v : α),
      (clampSetMin s v).1 = false → (clampSetMin s v).2 = s) ∧
    (∀ (α : Type) (inst : LinearOrder α) (s : ClampState α) (v : α),
      (clampSetMax s v).1 = false → (clampSetMax s v).2 = s) ∧
    (∀ (α : Type) (inst : LinearOrder α) (s : ClampState α) (mn mx : α),
      (clampSetMinAndMax s mn mx).1 = false → (clampSetMinAndMax s mn mx).2 = s) ∧
    (∀ (s : InterleaverState) (v : Nat),
      (interleaverSetChunkSize s v).1 = false → (interleaverSetChunkSize s v).2 = s) ∧
    (∀ (s : SelectState) (v : Nat),
      (selectSetSelectedInput s v).1 = false → (selectSetSelectedInput s v).2 = s) := by
  refine ⟨?_, ?_, ?_, ?_, ?_⟩
  · intro α inst s v h
    by_cases hc : s.max < v <;> simp [clampSetMin, hc] at h ⊢
  · intro α inst s v h
    by_cases hc : v < s.min <;> simp [clampSetMax, hc] at h ⊢
  · intro α inst s mn mx h
    by_cases hc : mx < mn <;> simp [clampSetMinAndMax, hc] at h ⊢
  · intro s v h
    by_cases hc : v = 0 <;> simp [interleaverSetChunkSize, hc] at h ⊢
  · intro s v h
    by_cases hc : s.numInputs ≤ v <;> simp [selectSetSelectedInput, hc] at h ⊢

/-- Witness for `failed_setter_preserves_state`: concrete failing calls
(`setMin(5)` with `max = 0`, `setMax(-5)` with `min = 0`,
`setMinAndMax(9, 1)`, `setChunkSize(0)`, `setSelectedInput(5)` with two
inputs) all leave the prior state intact. -/
theorem failed_setter_preserves_state_witness :
    (clampSetMin (⟨0, 0, true, true⟩ : ClampState Int) 5).2 = ⟨0, 0, true, true⟩ ∧
    (clampSetMax (⟨0, 0, true, true⟩ : ClampState Int) (-5)).2 = ⟨0, 0, true, true⟩ ∧
    (clampSetMinAndMax (⟨0, 0, true, true⟩ : ClampState Int) 9 1).2 = ⟨0, 0, true, true⟩ ∧
    (interleaverSetChunkSize ⟨8, 1, 8⟩ 0).2 = ⟨8, 1, 8⟩ ∧
    (selectSetSelectedInput ⟨2, 0⟩ 5).2 = ⟨2, 0⟩ :=
  ⟨failed_setter_preserves_state.1 Int _ ⟨0, 0, true, true⟩ 5 (by decide),
   failed_setter_preserves_state.2.1 Int _ ⟨0, 0, true, true⟩ (-5) (by decide),
   failed_setter_preserves_state.2.2.1 Int _ ⟨0, 0, true, true⟩ 9 1 (by decide),
   failed_setter_preserves_state.2.2.2.1 ⟨8, 1, 8⟩ 0 (by decide),
   failed_setter_preserves_state.2.2.2.2 ⟨2, 0⟩ 5 (by decide)⟩

/-- Reading `numChunks` chunks of `chunk` elements from a buffer, the
cursor advancing by `chunk` per copy, yields exactly the buffer's first
`numChunks * chunk` elements. -/
theorem flatMap_range_chunks (chunk : Nat) (b : List Int) (n : Nat) :
    (List.range n).flatMap (fun ci => (b.drop (ci * chunk)).take chunk) =
      b.take (n * chunk) := by
  induction n with
  | zero => simp
  | succ m ih =>
    rw [List.range_succ, List.flatMap_append, ih]
    simp only [List.flatMap_cons, List.flatMap_nil, List.append_nil]
    rw [Nat.succ_mul, List.take_add]

/-- Counterexample to C2 as stated: two inputs whose converted buffers
hold 3 elements each (`elemSize = 1` byte), `chunkSize = 2`, ample
output capacity.  `numChunks = min(3/2, 100/2/2) = 1`, so
`numChunks * chunkSize = 2` converted elements per input are copied
(output `[1, 2, 4, 5]`), but the code consumes
`elemsIn * elemSize = 3` bytes from each input — the third converted
element of each input is consumed without ever being copied, while the
claim requires consumption of exactly 2 and that elements beyond the
copied ones stay unconsumed. -/
theorem interleaver_consume_counterexample :
    interleaverWork 2 [([1, 2, 3], 1), ([4, 5, 6], 1)] 100 =
      ⟨[3, 3], 4, [1, 2, 4, 5]⟩ ∧
    ([3, 3] : List Nat) ≠ [1 * 2 * 1, 1 * 2 * 1] := by
  constructor
  · decide
  · decide

/-- C2 (amended): on every `work()` invocation that copies
`numChunks > 0` chunks, each input port is consumed by the original
bytes corresponding to `elemsIn` converted elements — `elemsIn` being
the minimum converted element count over all inputs — rather than to the
`numChunks * chunkSize` converted elements actually copied; the copied
elements are exactly each input's first `numChunks * chunkSize`
converted elements, and any converted elements between
`numChunks * chunkSize` and `elemsIn` are consumed without being
copied. -/
theorem interleaver_work_consumption (chunk : Nat)
    (inputs : List (List Int × Nat)) (outCap : Nat)
    (hne : inputs ≠ []) (hsz : ∀ p ∈ inputs, 0 < p.2)
    (hnc : 0 < min (listMin0 (inputs.map (fun p => p.1.length)) / chunk)
                   (outCap / chunk / inputs.length)) :
    (interleaverWork chunk inputs outCap).consumedBytes =
      inputs.map (fun p => listMin0 (inputs.map (fun q => q.1.length)) * p.2) ∧
    (interleaverWork chunk inputs outCap).produced =
      min (listMin0 (inputs.map (fun p => p.1.length)) / chunk)
          (outCap / chunk / inputs.length) * inputs.length * chunk ∧
    (∀ p ∈ inputs,
      (List.range (min (listMin0 (inputs.map (fun q => q.1.length)) / chunk)
                       (outCap / chunk / inputs.length))).flatMap
          (fun ci => (p.1.drop (ci * chunk)).take chunk) =
        p.1.take (min (listMin0 (inputs.map (fun q => q.1.length)) / chunk)
                      (outCap / chunk / inputs.length) * chunk)) := by
  have hA : 0 < listMin0 (inputs.map (fun p => p.1.length)) / chunk :=
    lt_of_lt_of_le hnc (min_le_left _ _)
  have hB : 0 < outCap / chunk / inputs.length :=
    lt_of_lt_of_le hnc (min_le_right _ _)
  have hchunk : 0 < chunk := by
    rcases Nat.eq_zero_or_pos chunk with h | h
    · subst h; simp [Nat.div_zero] at hA
    · exact h
  have hEchunk : chunk ≤ listMin0 (inputs.map (fun p => p.1.length)) := by
    by_contra hcon
    rw [Nat.div_eq_of_lt (lt_of_not_le hcon)] at hA
    exact absurd hA (lt_irrefl 0)
  have hEpos : 0 < listMin0 (inputs.map (fun p => p.1.length)) :=
    lt_of_lt_of_le hchunk hEchunk
  have houtCap : 0 < outCap := by
    by_contra hcon
    have : outCap = 0 := by omega
    subst this
    simp [Nat.zero_div] at hB
  have hbytes : 0 < listMin0 (inputs.map (fun p => p.1.length * p.2)) := by
    refine listMin0_pos ?_ ?_
    · simpa using hne
    · intro x hx
      obtain ⟨p, hp, rfl⟩ := List.mem_map.mp hx
      have h1 : listMin0 (inputs.map (fun q => q.1.length)) ≤ p.1.length :=
        listMin0_le (List.mem_map.mpr ⟨p, hp, rfl⟩)
      exact Nat.mul_pos (lt_of_lt_of_le hEpos h1) (hsz p hp)
  have hguard : min (listMin0 (inputs.map (fun p => p.1.length * p.2))) outCap ≠ 0 := by
    omega
  have hncne : min (listMin0 (inputs.map (fun p => p.1.length)) / chunk)
      (outCap / chunk / inputs.length) ≠ 0 := by omega
  refine ⟨?_, ?_, ?_⟩
  · simp only [interleaverWork, if_neg hguard, if_neg hncne]
  · simp only [interleaverWork, if_neg hguard, if_neg hncne]
  · intro p _
    exact flatMap_range_chunks chunk p.1 _

/-- Witness for `interleaver_work_consumption`: the counterexample's
configuration; the amended consumption `[3, 3]` and production 4 follow
from the theorem at this input. -/
theorem interleaver_work_consumption_witness :
    (interleaverWork 2 [([1, 2, 3], 1), ([4, 5, 6], 1)] 100).consumedBytes = [3, 3] ∧
    (interleaverWork 2 [([1, 2, 3], 1), ([4, 5, 6], 1)] 100).produced = 4 := by
  obtain ⟨h1, h2, -⟩ :=
    interleaver_work_consumption 2 [([1, 2, 3], 1), ([4, 5, 6], 1)] 100
      (by decide) (by decide) (by decide)
  constructor
  · rw [h1]; decide
  · rw [h2]; decide

/-- Once `_done` is latched, FirstN consumes and drops everything:
no further output is ever produced. -/
theorem firstNRun_done (N : Nat) : ∀ bufs, firstNRun N true bufs = [] := by
  intro bufs
  induction bufs with
  | nil => rfl
  | cons b rest ih =>
    by_cases hb : b.length = 0 <;> simp [firstNRun, firstNWork, hb, ih]

/-- Once `_done` is latched, SkipFirstN forwards every buffer unchanged,
so its total output is the concatenation of the remaining buffers. -/
theorem skipFirstNRun_done (N : Nat) :
    ∀ bufs, skipFirstNRun N true bufs = bufs.flatten := by
  intro bufs
  induction bufs with
  | nil => rfl
  | cons b rest ih =>
    by_cases hb : b.length = 0
    · have : b = [] := List.length_eq_zero.mp hb
      subst this
      simp [skipFirstNRun, skipFirstNWork, ih]
    · simp [skipFirstNRun, skipFirstNWork, hb, ih]

/-- With `N = 0` and nonempty buffers, a fresh FirstN outputs its empty
first window and a fresh SkipFirstN forwards everything. -/
theorem firstN_skipFirstN_zeroN (bufs : List (List Int))
    (hb : ∀ r ∈ bufs, r ≠ []) :
    firstNRun 0 false bufs = [] ∧ skipFirstNRun 0 false bufs = bufs.flatten := by
  cases bufs with
  | nil => exact ⟨rfl, rfl⟩
  | cons b rest =>
    have hbne : b.length ≠ 0 := by
      intro h
      exact hb b (List.mem_cons_self _ _) (List.length_eq_zero.mp h)
    constructor
    · simp [firstNRun, firstNWork, hbne, firstNRun_done]
    · simp [skipFirstNRun, skipFirstNWork, hbne, skipFirstNRun_done]

/-- C5: an input stream delivered as one buffer `b` (possibly followed by
further nonempty buffers) to a fresh FirstN(N) and a fresh SkipFirstN(N):
when `b` holds at least `N` elements, FirstN's total output is the first
`N` elements, SkipFirstN's is everything after them followed by all
subsequent input unchanged, and their concatenation reconstructs the
stream; when the stream is a single buffer with fewer than `N` elements,
neither block produces anything. -/
theorem firstN_skipFirstN_reconstruct (N : Nat) (b : List Int)
    (rest : List (List Int)) (hrest : ∀ r ∈ rest, r ≠ []) :
    (N ≤ b.length →
      firstNRun N false (b :: rest) ++ skipFirstNRun N false (b :: rest) =
        b ++ rest.flatten) ∧
    (b.length < N →
      firstNRun N false [b] = [] ∧ skipFirstNRun N false [b] = []) := by
  constructor
  · intro hN
    by_cases hb : b.length = 0
    · have hN0 : N = 0 := by omega
      have hbnil : b = [] := List.length_eq_zero.mp hb
      subst hN0; subst hbnil
      obtain ⟨h1, h2⟩ := firstN_skipFirstN_zeroN rest hrest
      simp [firstNRun, skipFirstNRun, firstNWork, skipFirstNWork, h1, h2]
    · have hfirst : firstNRun N false (b :: rest) = b.take N := by
        simp [firstNRun, firstNWork, hb, hN, firstNRun_done]
      have hskip : skipFirstNRun N false (b :: rest) = b.drop N ++ rest.flatten := by
        simp [skipFirstNRun, skipFirstNWork, hb, hN, skipFirstNRun_done]
      rw [hfirst, hskip, ← List.append_assoc, List.take_append_drop]
  · intro hN
    have hles : ¬ N ≤ b.length := by omega
    by_cases hb : b.length = 0 <;>
      constructor <;>
        simp [firstNRun, skipFirstNRun, firstNWork, skipFirstNWork, hb, hles]

/-- Witness for `firstN_skipFirstN_reconstruct`: stream `[1,2,3]` then
`[4]` with `N = 2`: FirstN emits `[1,2]`, SkipFirstN emits `[3,4]`,
concatenation `[1,2,3,4]`; and the single short buffer `[9]` with
`N = 2` yields no output from either block. -/
theorem firstN_skipFirstN_reconstruct_witness :
    firstNRun 2 false [[1, 2, 3], [4]] ++ skipFirstNRun 2 false [[1, 2, 3], [4]] =
      [1, 2, 3, 4] ∧
    firstNRun 2 false [[9]] = [] ∧ skipFirstNRun 2 false [[9]] = [] := by
  constructor
  · have h := (firstN_skipFirstN_reconstruct 2 [1, 2, 3] [[4]] (by decide)).1
      (by decide)
    rw [h]; decide
  · exact (firstN_skipFirstN_reconstruct 2 [9] [] (by decide)).2 (by decide)

/-- The running-minimum update of the kernel's scan is `min`. -/
theorem ite_lt_eq_min (v mn : Int) : (if v < mn then v else mn) = min mn v := by
  rcases lt_or_le v mn with h | h
  · rw [if_pos h, min_eq_right (le_of_lt h)]
  · rw [if_neg (not_lt.mpr h), min_eq_left h]

/-- The running-maximum update of the kernel's scan is `max`. -/
theorem ite_lt_eq_max (v mx : Int) : (if mx < v then v else mx) = max mx v := by
  rcases lt_or_le mx v with h | h
  · rw [if_pos h, max_eq_right (le_of_lt h)]
  · rw [if_neg (not_lt.mpr h), max_eq_left h]

/-- The kernel's scan at one index computes the fold of `min` and `max`
over the remaining inputs' values. -/
theorem mmFold_eq_foldl (l : List Int) :
    ∀ mn mx, mmFold l mn mx = (l.foldl min mn, l.foldl max mx) := by
  induction l with
  | nil => intro mn mx; rfl
  | cons v rest ih =>
    intro mn mx
    rw [mmFold, ih, List.foldl_cons, List.foldl_cons,
      ite_lt_eq_min, ite_lt_eq_max]

/-- The value pair the kernel writes at index `i` is the minimum and
maximum over all inputs' values at `i`. -/
theorem minMaxAt_eq (inputs : List (List Int)) (i : Nat) (hne : inputs ≠ []) :
    some (minMaxAt inputs i).1 = (inputs.map (fun l => l.getD i 0)).min? ∧
    some (minMaxAt inputs i).2 = (inputs.map (fun l => l.getD i 0)).max? := by
  cases inputs with
  | nil => exact absurd rfl hne
  | cons l rest =>
    rw [minMaxAt, mmFold_eq_foldl]
    exact ⟨rfl, rfl⟩

/-- C7: for the MinMax block with `N ≥ 1` same-dtype inputs and
`minAllElements = m > 0` (the minimum over every input's available
elements and both outputs' capacities): `work()` writes, for every
scalar index `i < m * dim`, the elementwise minimum of the inputs at `i`
to the "min" output and the elementwise maximum to the "max" output,
consumes exactly `m` elements from every input, and produces exactly `m`
elements on both outputs. -/
theorem minmax_work_correct (dim : Nat) (inputs : List (List Int))
    (capMin capMax : Nat) (hne : inputs ≠ [])
    (hm : 0 < min (listMin0 (inputs.map (fun l => l.length / dim)))
                  (min capMin capMax)) :
    (minMaxWork dim inputs capMin capMax).consumedEach =
      min (listMin0 (inputs.map (fun l => l.length / dim))) (min capMin capMax) ∧
    (minMaxWork dim inputs capMin capMax).producedEach =
      min (listMin0 (inputs.map (fun l => l.length / dim))) (min capMin capMax) ∧
    (minMaxWork dim inputs capMin capMax).outMin.length =
      min (listMin0 (inputs.map (fun l => l.length / dim))) (min capMin capMax) * dim ∧
    (minMaxWork dim inputs capMin capMax).outMax.length =
      min (listMin0 (inputs.map (fun l => l.length / dim))) (min capMin capMax) * dim ∧
    (∀ i, i < min (listMin0 (inputs.map (fun l => l.length / dim)))
                  (min capMin capMax) * dim →
      some ((minMaxWork dim inputs capMin capMax).outMin.getD i 0) =
        (inputs.map (fun l => l.getD i 0)).min? ∧
      some ((minMaxWork dim inputs capMin capMax).outMax.getD i 0) =
        (inputs.map (fun l => l.getD i 0)).max?) := by
  have hmne : min (listMin0 (inputs.map (fun l => l.length / dim)))
      (min capMin capMax) ≠ 0 := by omega
  refine ⟨?_, ?_, ?_, ?_, ?_⟩ <;>
    simp only [minMaxWork, if_neg hmne]
  · simp
  · simp
  · intro i hi
    have hlen : i < ((List.range (min (listMin0 (inputs.map (fun l => l.length / dim)))
        (min capMin capMax) * dim)).map (fun j => (minMaxAt inputs j).1)).length := by
      simpa using hi
    have hlen2 : i < ((List.range (min (listMin0 (inputs.map (fun l => l.length / dim)))
        (min capMin capMax) * dim)).map (fun j => (minMaxAt inputs j).2)).length := by
      simpa using hi
    rw [List.getD_eq_getElem _ _ hlen, List.getD_eq_getElem _ _ hlen2]
    simp only [List.get_eq_getElem, List.getElem_map, List.getElem_range]
    exact minMaxAt_eq inputs i hne

/-- Witness for `minmax_work_correct`: three input streams of length 2:
the outputs hold the elementwise min (`1` at index 0) and max (`9` at
index 1), and two elements are consumed from every input. -/
theorem minmax_work_correct_witness :
    (minMaxWork 1 [[3, 9], [1, 2], [7, 5]] 2 2).consumedEach = 2 ∧
    some ((minMaxWork 1 [[3, 9], [1, 2], [7, 5]] 2 2).outMin.getD 0 0) =
      some (1 : Int) ∧
    some ((minMaxWork 1 [[3, 9], [1, 2], [7, 5]] 2 2).outMax.getD 1 0) =
      some (9 : Int) := by
  obtain ⟨h1, -, -, -, h5⟩ :=
    minmax_work_correct 1 [[3, 9], [1, 2], [7, 5]] 2 2 (by decide) (by decide)
  refine ⟨?_, ?_, ?_⟩
  · rw [h1]; decide
  · rw [(h5 0 (by decide)).1]; decide
  · rw [(h5 1 (by decide)).2]; decide

/-- `validateRoutesVector` succeeds exactly on the permutations of
`[0, N)` (for a nonempty route vector; an empty one indexes past the end
of the sorted copy in C++). -/
theorem validateRoutes_iff (routes : List Nat) (hn : 0 < routes.length) :
    validateRoutesVector routes = true ↔ routes.Perm (List.range routes.length) := by
  have hperm : (List.insertionSort (· ≤ ·) routes).Perm routes :=
    List.perm_insertionSort _ _
  have hlen : (List.insertionSort (· ≤ ·) routes).length = routes.length :=
    hperm.length_eq
  constructor
  · intro h
    rw [validateRoutesVector, Bool.and_eq_true] at h
    obtain ⟨-, h2⟩ := h
    have hall : ∀ chan, chan < routes.length →
        (List.insertionSort (· ≤ ·) routes).getD chan 0 = chan := by
      intro chan hc
      have := List.all_eq_true.mp h2 chan (List.mem_range.mpr hc)
      exact eq_of_beq this
    have hs : List.insertionSort (· ≤ ·) routes = List.range routes.length := by
      refine List.ext_getElem (by rw [hlen, List.length_range]) ?_
      intro i h1' h2'
      rw [List.getElem_range]
      have hi : i < routes.length := by rwa [hlen] at h1'
      have := hall i hi
      rwa [List.getD_eq_getElem _ _ h1'] at this
    exact hs ▸ hperm.symm
  · intro h
    have hs : List.insertionSort (· ≤ ·) routes = List.range routes.length :=
      List.eq_of_perm_of_sorted (hperm.trans h)
        (List.sorted_insertionSort _ _) (List.sorted_le_range _)
    rw [validateRoutesVector, Bool.and_eq_true]
    constructor
    · rw [hs, List.getLast?_eq_getElem?, List.length_range,
        List.getElem?_range (by omega : routes.length - 1 < routes.length)]
      simp
    · rw [List.all_eq_true]
      intro chan hc
      have hc2 : chan < routes.length := List.mem_range.mp hc
      have hc3 : chan < (List.insertionSort (· ≤ ·) routes).length := by omega
      rw [hs] at hc3 ⊢
      rw [List.getD_eq_getElem _ _ hc3, List.getElem_range]
      exact beq_self_eq_true chan

/-- Replacing the element at `m` by `x` and prepending the old element
is a permutation of prepending `x`. -/
theorem cons_get_set_perm : ∀ (xs : List Nat) (m : Nat) (hm : m < xs.length)
    (x : Nat), (xs.get ⟨m, hm⟩ :: xs.set m x).Perm (x :: xs) := by
  intro xs
  induction xs with
  | nil => intro m hm; cases hm
  | cons y ys ih =>
    intro m hm x
    cases m with
    | zero => exact List.Perm.swap x y ys
    | succ m' =>
      have hm' : m' < ys.length := by simpa using hm
      have h1 : ((y :: ys).get ⟨m' + 1, hm⟩ :: (y :: ys).set (m' + 1) x) =
          (ys.get ⟨m', hm'⟩ :: y :: ys.set m' x) := rfl
      rw [h1]
      exact (List.Perm.swap _ _ _).trans
        (((ih m' hm' x).cons y).trans (List.Perm.swap _ _ _))

/-- `std::iter_swap` of two in-range positions (expressed as two `set`
operations) permutes the list. -/
theorem set_set_swap_perm : ∀ (l : List Nat) (i j : Nat) (hi : i < l.length)
    (hj : j < l.length),
    ((l.set i (l.get ⟨j, hj⟩)).set j (l.get ⟨i, hi⟩)).Perm l := by
  intro l
  induction l with
  | nil => intro i j hi; cases hi
  | cons y ys ih =>
    intro i j hi hj
    cases i with
    | zero =>
      cases j with
      | zero => simp
      | succ j' =>
        have hj' : j' < ys.length := by simpa using hj
        exact cons_get_set_perm ys j' hj' y
    | succ i' =>
      cases j with
      | zero =>
        have hi' : i' < ys.length := by simpa using hi
        exact cons_get_set_perm ys i' hi' y
      | succ j' =>
        have hi' : i' < ys.length := by simpa using hi
        have hj' : j' < ys.length := by simpa using hj
        exact (ih i' j' hi' hj').cons y

/-- `std::find` over the whole `_routes` vector locates `o` inside the
first `N` entries whenever `o` occurs there. -/
theorem indexOf_lt_of_mem_take :
    ∀ (l : List Nat) (N o : Nat), o ∈ l.take N → l.indexOf o < N := by
  intro l
  induction l with
  | nil => intro N o h; simp at h
  | cons y ys ih =>
    intro N o h
    cases N with
    | zero => simp at h
    | succ N' =>
      rw [List.take_succ_cons] at h
      rcases List.mem_cons.mp h with rfl | hmem
      · rw [List.indexOf_cons_self]
        exact Nat.succ_pos _
      · by_cases hya : y = o
        · subst hya
          rw [List.indexOf_cons_self]
          exact Nat.succ_pos _
        · rw [List.indexOf_cons_ne _ hya]
          exact Nat.succ_lt_succ (ih N' o hmem)

/-- One `setOutputChannel(i, o)` call with in-range ports keeps the first
`N` entries of `_routes` a permutation of `[0, N)` (and the vector at
least `N` long). -/
theorem mux_step_invariant (l : List Nat) (N i o : Nat)
    (hlen : N ≤ l.length) (hperm : (l.take N).Perm (List.range N))
    (hi : i < N) (ho : o < N) :
    N ≤ (muxSetOutputChannel l i o).length ∧
    ((muxSetOutputChannel l i o).take N).Perm (List.range N) := by
  have homem : o ∈ l.take N := hperm.mem_iff.mpr (List.mem_range.mpr ho)
  have homeml : o ∈ l := List.mem_of_mem_take homem
  have hidx : l.indexOf o < N := indexOf_lt_of_mem_take l N o homem
  have hidxlen : l.indexOf o < l.length := lt_of_lt_of_le hidx hlen
  have hilen : i < l.length := lt_of_lt_of_le hi hlen
  have htlen : (l.take N).length = N := List.length_take_of_le hlen
  have hitl : i < (l.take N).length := by omega
  have hidxtl : l.indexOf o < (l.take N).length := by omega
  rw [muxSetOutputChannel, if_pos homeml]
  constructor
  · simp only [List.length_set]; exact hlen
  · rw [List.set_take, List.set_take]
    have hvi : l.getD i 0 = (l.take N).get ⟨i, hitl⟩ := by
      rw [List.getD_eq_getElem _ _ hilen, List.get_eq_getElem,
        List.getElem_take]
    have hvidx : l.getD (l.indexOf o) 0 =
        (l.take N).get ⟨l.indexOf o, hidxtl⟩ := by
      rw [List.getD_eq_getElem _ _ hidxlen, List.get_eq_getElem,
        List.getElem_take]
    rw [hvi, hvidx]
    exact (set_set_swap_perm (l.take N) i (l.indexOf o) hitl hidxtl).trans hperm

/-- The invariant of `mux_step_invariant` is preserved by every sequence
of in-range `setOutputChannel` calls. -/
theorem muxApplyCalls_invariant :
    ∀ (calls : List (Nat × Nat)) (l : List Nat) (N : Nat),
      N ≤ l.length → ((l.take N).Perm (List.range N)) →
      (∀ c ∈ calls, c.1 < N ∧ c.2 < N) →
      N ≤ (muxApplyCalls l calls).length ∧
      ((muxApplyCalls l calls).take N).Perm (List.range N) := by
  intro calls
  induction calls with
  | nil => intro l N h1 h2 _; exact ⟨h1, h2⟩
  | cons c rest ih =>
    intro l N h1 h2 hc
    obtain ⟨hc1, hc2⟩ := hc c (List.mem_cons_self _ _)
    obtain ⟨h1', h2'⟩ := mux_step_invariant l N c.1 c.2 h1 h2 hc1 hc2
    exact ih _ N h1' h2' (fun c2 hm => hc c2 (List.mem_cons_of_mem _ hm))

/-- C1: a route table is accepted by the Multiplexer's construction-time
validation exactly when it is a bijection over `[0, numChannels)` (a
permutation of `0..N-1`; any non-bijective vector makes
`validateRoutesVector` throw), and after any finite sequence of in-range
`setOutputChannel(inputPort, outputPort)` calls the effective mapping
used by `work()` — the first `numChannels` entries of the `_routes`
vector, which the constructor extended with `0..N-1` during port setup —
is still a bijection over `[0, numChannels)`. -/
theorem mux_route_bijection (routes : List Nat) (calls : List (Nat × Nat))
    (hn : 0 < routes.length)
    (hcalls : ∀ c ∈ calls, c.1 < routes.length ∧ c.2 < routes.length) :
    (validateRoutesVector routes = true ↔
      routes.Perm (List.range routes.length)) ∧
    (validateRoutesVector routes = true →
      ((muxApplyCalls (muxInitRoutes routes) calls).take routes.length).Perm
        (List.range routes.length)) := by
  refine ⟨validateRoutes_iff routes hn, ?_⟩
  intro hv
  have hperm0 : routes.Perm (List.range routes.length) :=
    (validateRoutes_iff routes hn).mp hv
  have hinit_len : routes.length ≤ (muxInitRoutes routes).length := by
    rw [muxInitRoutes, List.length_append]
    omega
  have hinit_take : ((muxInitRoutes routes).take routes.length).Perm
      (List.range routes.length) := by
    rw [muxInitRoutes, List.take_left]
    exact hperm0
  exact (muxApplyCalls_invariant calls (muxInitRoutes routes) routes.length
    hinit_len hinit_take hcalls).2

/-- Witness for `mux_route_bijection`: the route table `[1, 2, 0]` is
accepted, and after the calls `setOutputChannel(0, 0)` and
`setOutputChannel(2, 1)` the first three entries of `_routes` are still
a permutation of `{0, 1, 2}`. -/
theorem mux_route_bijection_witness :
    validateRoutesVector [1, 2, 0] = true ∧
    ((muxApplyCalls (muxInitRoutes [1, 2, 0]) [(0, 0), (2, 1)]).take 3).Perm
      (List.range 3) := by
  have h := mux_route_bijection [1, 2, 0] [(0, 0), (2, 1)]
    (by decide) (by decide)
  exact ⟨by decide, h.2 (by decide)⟩

/-- Witness for `clamp_work_formula`, exercising both cases: the int8
instantiation (`tmin = -128`, `tmax = 127`) with both clamps enabled at
`min = 30`, `max = 90` on the spec's boundary example (ordered bounds),
and the float32 instantiation at the reachable inverted state
clampMax-only with `max = -1 < 2^-126` (the output is `lo' = 2^-126`
below `lo'` and `hi' = -1` everywhere else). -/
theorem clamp_work_formula_witness :
    (clampWork (-128 : Int) 127 ⟨30, 90, true, true⟩ [-128, 0, 25, 50, 75, 100, 125, 127] 8).out =
      [30, 30, 30, 50, 75, 90, 90, 90] ∧
    (clampWorkF32 ⟨-5, -1, false, true⟩ [-3, 7] 8).out =
      [f32NumericLimitsMin, -1] := by
  constructor
  · obtain ⟨-, -, h3, -⟩ :=
      clamp_work_formula (-128 : Int) 127 ⟨30, 90, true, true⟩
        [-128, 0, 25, 50, 75, 100, 125, 127] 8
    rw [h3 (by decide)]; decide
  · obtain ⟨-, -, -, h4⟩ :=
      clamp_work_formula f32NumericLimitsMin f32NumericLimitsMax
        ⟨-5, -1, false, true⟩ [-3, 7] 8
    show (clampWork f32NumericLimitsMin f32NumericLimitsMax
      ⟨-5, -1, false, true⟩ [-3, 7] 8).out = [f32NumericLimitsMin, -1]
    rw [h4 (by norm_num [f32NumericLimitsMin])]
    norm_num [f32NumericLimitsMin]

end PothosBlocks
